import Mathlib

/-!
Verification of the Mastodon comments widget (`static/js/mastodon.js`).

Text is modelled as `List Char` (`Str`).  The JavaScript global string
replacement `s.replace(<literal pattern>, rep)` (with the `g` flag and a
pattern free of regex metacharacters) is modelled by `replaceAll`: a
left-to-right scan that, at each position, either consumes a match of the
whole pattern and emits the replacement, or copies one character.  The scan
is written with an explicit fuel equal to the length of the scanned list so
that every definition reduces in the kernel.

JavaScript optional / nullable string values are modelled as `Option Str`,
with the JS truthiness test `s ? a : b` on strings reading "not `none` and
not empty" (`jsOr`).  The platform date formatter `toLocaleDateString` is
implementation-defined and is threaded through as an explicit function
argument `fd`; no claim concerns its output.

The effectful loader and initializer are modelled as pure functions from
their configuration and from the outcome of the single network fetch
(`FetchOutcome`) to a record of their observable effects: the markup
written to each container, whether the fetch was issued, and whether a
diagnostic was logged.
-/

namespace Mastodon

/-- Text, modelled as a list of characters. -/
abbrev Str := List Char

/-- The apostrophe character (U+0027). -/
def apos : Char := Char.ofNat 39

/-- The apostrophe as a one-character string. -/
def aposS : Str := [apos]

/-- Fueled left-to-right global replacement scan.  At each position, if the
pattern is a prefix of the remaining input the whole match is consumed and
the replacement emitted; otherwise one character is copied.  Fuel bounds the
number of recursive steps. -/
def replaceAllGo (pat rep : Str) : Nat → Str → Str
  | 0, l => l
  | _ + 1, [] => []
  | fuel + 1, x :: xs =>
    if pat.isPrefixOf (x :: xs) then
      rep ++ replaceAllGo pat rep fuel ((x :: xs).drop pat.length)
    else
      x :: replaceAllGo pat rep fuel xs

/-- JavaScript `String.prototype.replace` with a global literal pattern:
every leftmost non-overlapping occurrence of `pat` in `l` is replaced by
`rep`. -/
def replaceAll (pat rep l : Str) : Str :=
  replaceAllGo pat rep l.length l

/-- `escapeHtml` from the source: the five global character-for-entity
replacements applied in order, ampersand first. -/
def escapeHtml (unsafe_ : Str) : Str :=
  replaceAll aposS "&#039;".data
    (replaceAll "\"".data "&quot;".data
      (replaceAll ">".data "&gt;".data
        (replaceAll "<".data "&lt;".data
          (replaceAll "&".data "&amp;".data unsafe_))))

/-- Replace each character of a string by a string. -/
def charExpand (f : Char → Str) : Str → Str
  | [] => []
  | x :: xs => f x ++ charExpand f xs

/-- The per-character escape map the spec describes: each of the five
HTML-significant characters becomes its entity, every other character is
kept. -/
def escChar (c : Char) : Str :=
  if c = '&' then "&amp;".data
  else if c = '<' then "&lt;".data
  else if c = '>' then "&gt;".data
  else if c = '"' then "&quot;".data
  else if c = apos then "&#039;".data
  else [c]

/-- The sanitizer as the spec reads: a single pass replacing each
HTML-significant character by its entity, nothing escaped twice. -/
def escapeHtmlSpec (s : Str) : Str :=
  charExpand escChar s

/-- The five entity sequences the five fixed replacements produce. -/
def entityList : List Str :=
  ["&amp;".data, "&lt;".data, "&gt;".data, "&quot;".data, "&#039;".data]

/-- `true` iff the string holds no literal `<`, `>`, `"` or `'`. -/
def noRawSpecials (l : Str) : Bool :=
  l.all fun c => !(c = '<' || c = '>' || c = '"' || c = apos)

/-- `true` iff every occurrence of `&` in the string is the start of one of
the five entity sequences. -/
def ampOk : Str → Bool
  | [] => true
  | c :: rest =>
    (!(c = '&') || entityList.any fun e => e.isPrefixOf (c :: rest)) && ampOk rest

/-- `true` iff `pat` occurs as a contiguous run somewhere in the string. -/
def containsSeq (pat : Str) : Str → Bool
  | [] => pat.isEmpty
  | l@(_ :: xs) => pat.isPrefixOf l || containsSeq pat xs

/-- The number of positions at which `pat` starts in the string. -/
def countSeq (pat : Str) : Str → Nat
  | [] => 0
  | l@(_ :: xs) => (if pat.isPrefixOf l then 1 else 0) + countSeq pat xs

/-- Fueled companion of `replaceAllGo` that returns the segments between the
leftmost non-overlapping matches instead of substituting them. -/
def splitAllGo (pat : Str) : Nat → Str → List Str
  | 0, l => [l]
  | _ + 1, [] => [[]]
  | fuel + 1, x :: xs =>
    if pat.isPrefixOf (x :: xs) then
      [] :: splitAllGo pat fuel ((x :: xs).drop pat.length)
    else
      match splitAllGo pat fuel xs with
      | [] => [[x]]
      | s :: ss => (x :: s) :: ss

/-- The segments of a string between the leftmost non-overlapping matches of
`pat`. -/
def splitAll (pat l : Str) : List Str :=
  splitAllGo pat l.length l

/-- Concatenate a list of strings with `sep` between consecutive entries. -/
def joinSep (sep : Str) : List Str → Str
  | [] => []
  | [s] => s
  | s :: ss => s ++ sep ++ joinSep sep ss

/-- A custom-emoji entry of a reply: a shortcode and an image URL. -/
structure Emoji where
  shortcode : Str
  url : Str

/-- The pattern the source builds for an emoji: the literal text
`:shortcode:` (the regex `new RegExp(":" + shortcode + ":", "g")` for a
shortcode free of regex metacharacters). -/
def emojiPattern (e : Emoji) : Str :=
  ':' :: (e.shortcode ++ [':'])

/-- The inline image element the source substitutes for a shortcode, with
the sanitized URL as `src`, the sanitized shortcode as `alt` and a
lazy-loading hint. -/
def emojiImg (e : Emoji) : Str :=
  "<img src=\"".data ++ escapeHtml e.url ++ "\" alt=\"".data ++
    escapeHtml e.shortcode ++ "\" class=\"emoji\" loading=\"lazy\" />".data

/-- The escape-free shape of the substituted image element, taking the
already-sanitized URL and shortcode. -/
def emojiImgTemplate (u s : Str) : Str :=
  "<img src=\"".data ++ u ++ "\" alt=\"".data ++ s ++
    "\" class=\"emoji\" loading=\"lazy\" />".data

/-- `emojify` from the source: an absent or empty collection leaves the
content unchanged; otherwise each pair, in collection order, globally
replaces `:shortcode:` by its image element. -/
def emojify (content : Str) (emojis : Option (List Emoji)) : Str :=
  match emojis with
  | none => content
  | some es =>
    if es.isEmpty then content
    else es.foldl (fun c e => replaceAll (emojiPattern e) (emojiImg e) c) content

/-- An emoji whose image URL itself contains the literal pattern `:a:`. -/
def emojiSelf : Emoji :=
  ⟨"a".data, "u:a:v".data⟩

/-- JavaScript `a || b` on a nullable string: the fallback is taken when the
value is `null`/absent or the empty string. -/
def jsOr (o : Option Str) (d : Str) : Str :=
  match o with
  | none => d
  | some s => if s.isEmpty then d else s

/-- The author fields of a reply used by the renderer. -/
structure Account where
  display_name : Option Str
  username : Str
  url : Str
  avatar : Str

/-- A media attachment of a reply. -/
structure MediaAttachment where
  type : Str
  url : Str
  preview_url : Str
  mime_type : Option Str
  description : Option Str

/-- A reply (a descendant of the tracked post) as consumed by the
renderer. -/
structure Comment where
  account : Account
  content : Str
  emojis : Option (List Emoji)
  created_at : Str
  url : Str
  media_attachments : Option (List MediaAttachment)

/-- The element the source emits for one media attachment: images wrapped in
a link to the original, video and animated images as a `video` element,
audio as an `audio` element, every other kind nothing.  All interpolated
fields are sanitized; an empty MIME type falls back to a per-kind
default. -/
def mediaFragment (media : MediaAttachment) : Str :=
  let mediaUrl := escapeHtml media.url
  let previewUrl := escapeHtml media.preview_url
  let mimeType := escapeHtml (jsOr media.mime_type [])
  if media.type = "image".data then
    "<a href=\"".data ++ mediaUrl ++
      "\" target=\"_blank\" rel=\"noopener noreferrer\">\n                    <img src=\"".data ++
      previewUrl ++ "\" alt=\"".data ++
      escapeHtml (jsOr media.description "Image".data) ++
      "\" loading=\"lazy\" />\n                </a>".data
  else if media.type = "video".data ∨ media.type = "gifv".data then
    "<video controls preload=\"metadata\" poster=\"".data ++ previewUrl ++
      "\">\n                    <source src=\"".data ++ mediaUrl ++
      "\" type=\"".data ++
      (if mimeType.isEmpty then "video/mp4".data else mimeType) ++
      "\">\n                </video>".data
  else if media.type = "audio".data then
    "<audio controls preload=\"metadata\">\n                    <source src=\"".data ++
      mediaUrl ++ "\" type=\"".data ++
      (if mimeType.isEmpty then "audio/mpeg".data else mimeType) ++
      "\">\n                </audio>".data
  else []

/-- The escape-free shape of one attachment element, taking the kind and the
already-sanitized URL, preview URL, MIME type and description.  The kind is
only compared, never concatenated. -/
def mediaFragmentTemplate (kind url preview mime desc : Str) : Str :=
  if kind = "image".data then
    "<a href=\"".data ++ url ++
      "\" target=\"_blank\" rel=\"noopener noreferrer\">\n                    <img src=\"".data ++
      preview ++ "\" alt=\"".data ++ desc ++
      "\" loading=\"lazy\" />\n                </a>".data
  else if kind = "video".data ∨ kind = "gifv".data then
    "<video controls preload=\"metadata\" poster=\"".data ++ preview ++
      "\">\n                    <source src=\"".data ++ url ++
      "\" type=\"".data ++
      (if mime.isEmpty then "video/mp4".data else mime) ++
      "\">\n                </video>".data
  else if kind = "audio".data then
    "<audio controls preload=\"metadata\">\n                    <source src=\"".data ++
      url ++ "\" type=\"".data ++
      (if mime.isEmpty then "audio/mpeg".data else mime) ++
      "\">\n                </audio>".data
  else []

/-- The attachments block: nothing when the list is absent or empty,
otherwise the per-attachment elements wrapped in a `div`. -/
def attachmentsHtmlOf (medias : Option (List MediaAttachment)) : Str :=
  match medias with
  | none => []
  | some ms =>
    if ms.isEmpty then []
    else
      "<div class=\"mastodon-attachments\">".data ++
        (ms.map mediaFragment).flatten ++ "</div>".data

/-- `renderComment` from the source: one reply rendered as an HTML
fragment. -/
def renderComment (fd : Str → Str → Str) (comment : Comment) (lang : Str) : Str :=
  let displayName := escapeHtml (jsOr comment.account.display_name comment.account.username)
  let username := escapeHtml comment.account.username
  let accountUrl := escapeHtml comment.account.url
  let avatarUrl := escapeHtml comment.account.avatar
  let content := emojify comment.content comment.emojis
  let timestamp := fd comment.created_at lang
  let commentUrl := escapeHtml comment.url
  let attachmentsHtml := attachmentsHtmlOf comment.media_attachments
  "\n        <div class=\"mastodon-comment\">\n            <div class=\"mastodon-comment-header\">\n                <img src=\"".data ++
    avatarUrl ++ "\" alt=\"".data ++ displayName ++ aposS ++
    "s avatar\" class=\"mastodon-avatar\" loading=\"lazy\" />\n                <div class=\"mastodon-author\">\n                    <a href=\"".data ++
    accountUrl ++
    "\" target=\"_blank\" rel=\"noopener noreferrer\" class=\"mastodon-author-name\">\n                        ".data ++
    displayName ++
    "\n                    </a>\n                    <a href=\"".data ++
    accountUrl ++
    "\" target=\"_blank\" rel=\"noopener noreferrer\" class=\"mastodon-author-handle\">\n                        @".data ++
    username ++
    "\n                    </a>\n                </div>\n                <a href=\"".data ++
    commentUrl ++
    "\" target=\"_blank\" rel=\"noopener noreferrer\" class=\"mastodon-comment-date\">\n                    ".data ++
    timestamp ++
    "\n                </a>\n            </div>\n            <div class=\"mastodon-comment-content\">\n                ".data ++
    content ++
    "\n            </div>\n            ".data ++
    attachmentsHtml ++
    "\n        </div>\n    ".data

/-- The escape-free shape of a rendered reply, taking the already-sanitized
display name, handle, profile URL, avatar URL, the emoji-substituted body,
the formatted timestamp, the sanitized permalink and the attachments
block. -/
def renderCommentTemplate (displayName username accountUrl avatarUrl content
    timestamp commentUrl attachmentsHtml : Str) : Str :=
  "\n        <div class=\"mastodon-comment\">\n            <div class=\"mastodon-comment-header\">\n                <img src=\"".data ++
    avatarUrl ++ "\" alt=\"".data ++ displayName ++ aposS ++
    "s avatar\" class=\"mastodon-avatar\" loading=\"lazy\" />\n                <div class=\"mastodon-author\">\n                    <a href=\"".data ++
    accountUrl ++
    "\" target=\"_blank\" rel=\"noopener noreferrer\" class=\"mastodon-author-name\">\n                        ".data ++
    displayName ++
    "\n                    </a>\n                    <a href=\"".data ++
    accountUrl ++
    "\" target=\"_blank\" rel=\"noopener noreferrer\" class=\"mastodon-author-handle\">\n                        @".data ++
    username ++
    "\n                    </a>\n                </div>\n                <a href=\"".data ++
    commentUrl ++
    "\" target=\"_blank\" rel=\"noopener noreferrer\" class=\"mastodon-comment-date\">\n                    ".data ++
    timestamp ++
    "\n                </a>\n            </div>\n            <div class=\"mastodon-comment-content\">\n                ".data ++
    content ++
    "\n            </div>\n            ".data ++
    attachmentsHtml ++
    "\n        </div>\n    ".data

/-- The fixed empty-state message of the list renderer. -/
def noCommentsMsg : Str :=
  "<p class=\"mastodon-no-comments\">No comments yet. Be the first to comment on Mastodon!</p>".data

/-- `renderComments` from the source: the fixed empty-state message for an
absent or empty collection, otherwise the concatenation of the per-reply
fragments in the collection's order. -/
def renderComments (fd : Str → Str → Str) (comments : Option (List Comment))
    (lang : Str) : Str :=
  match comments with
  | none => noCommentsMsg
  | some cs =>
    if cs.isEmpty then noCommentsMsg
    else (cs.map fun comment => renderComment fd comment lang).flatten

/-- The fixed user-facing error message of the loader. -/
def errorMsg : Str :=
  "<p class=\"mastodon-error\">Failed to load comments. Please try again later.</p>".data

/-- The host validation of the source, `/^[a-z0-9.-]+$/i`: nonempty, and
every character an ASCII letter (either case), digit, dot or hyphen. -/
def validHost (s : Str) : Bool :=
  !s.isEmpty && s.all fun c =>
    ('a' ≤ c && c ≤ 'z') || ('A' ≤ c && c ≤ 'Z') ||
    ('0' ≤ c && c ≤ '9') || c = '.' || c = '-'

/-- The post-identifier validation of the source, `/^\d+$/`: nonempty and
all decimal digits. -/
def validPostId (s : Str) : Bool :=
  !s.isEmpty && s.all fun c => '0' ≤ c && c ≤ '9'

/-- What the spec's words say the host pattern `^[a-z0-9.-]+$`
(case-insensitive) accepts: one or more characters from the domain-name
character set. -/
def hostRegexSpec (s : Str) : Prop :=
  s ≠ [] ∧ ∀ c ∈ s,
    ('a' ≤ c ∧ c ≤ 'z') ∨ ('A' ≤ c ∧ c ≤ 'Z') ∨
    ('0' ≤ c ∧ c ≤ '9') ∨ c = '.' ∨ c = '-'

/-- What the spec's words say the post-id pattern `^\d+$` accepts: one or
more decimal digits. -/
def postIdRegexSpec (s : Str) : Prop :=
  s ≠ [] ∧ ∀ c ∈ s, '0' ≤ c ∧ c ≤ '9'

/-- The outcome of the single network fetch, as seen by the loader:
a transport failure (the promise rejects), or a response with a success
flag and a body.  The body is `none` when it is not valid JSON (the parse
throws), `some none` when the JSON object has no `descendants` field, and
`some (some ds)` when `descendants` is present. -/
inductive FetchOutcome where
  | transportFailure : FetchOutcome
  | response (ok : Bool) (body : Option (Option (List Comment))) : FetchOutcome

/-- `true` for every fetch outcome the loader treats as a failure. -/
def FetchOutcome.isFailure : FetchOutcome → Bool
  | .transportFailure => true
  | .response ok body => !ok || body.isNone

/-- The observable effects of one run of the loader: the markup written to
the inner comments-list container, whether the network request was issued,
and whether a diagnostic was logged. -/
structure LoadOut where
  innerHtml : Str
  fetched : Bool
  logged : Bool
  deriving DecidableEq

/-- `loadMastodonComments` from the source, as a function of the fetch
outcome.  Validation failures throw before the fetch; every thrown error is
caught, logged, and replaced by the fixed error message in the inner
container. -/
def loadMastodonComments (fd : Str → Str → Str) (host postId lang : Str)
    (env : FetchOutcome) : LoadOut :=
  if !validHost host then ⟨errorMsg, false, true⟩
  else if !validPostId postId then ⟨errorMsg, false, true⟩
  else
    match env with
    | .transportFailure => ⟨errorMsg, true, true⟩
    | .response ok body =>
      if !ok then ⟨errorMsg, true, true⟩
      else
        match body with
        | none => ⟨errorMsg, true, true⟩
        | some ds =>
          ⟨renderComments fd (some (ds.getD [])) lang, true, false⟩

/-- The attributes the initializer reads from the designated container
element; `none` is a missing attribute. -/
structure PageAttrs where
  host : Option Str
  postId : Option Str
  lang : Option Str
  postUrl : Option Str

/-- The skeleton the initializer injects, as a function of the sanitized
post URL: a header with the title and, when the sanitized post URL is
nonempty, a "comment on Mastodon" link; then the inner list container with
the loading placeholder. -/
def skeletonTemplate (escapedPostUrl : Str) : Str :=
  "\n            <div class=\"mastodon-comments\">\n                <div class=\"mastodon-comments-header\">\n                    <h3>Comments</h3>\n                    ".data ++
    (if escapedPostUrl.isEmpty then []
     else
       "<a href=\"".data ++ escapedPostUrl ++
         "\" target=\"_blank\" rel=\"noopener noreferrer\" class=\"mastodon-comment-link\">Comment on Mastodon</a>".data) ++
    "\n                </div>\n                <div id=\"mastodon-comments-list\">\n                    <p class=\"mastodon-loading\">Loading comments...</p>\n                </div>\n            </div>\n        ".data

/-- The skeleton as the source builds it from the raw optional post URL:
the URL is sanitized when present, and the link is emitted only when the
result is nonempty. -/
def skeletonOf (postUrl : Option Str) : Str :=
  let escapedPostUrl := match postUrl with
    | none => []
    | some u => if u.isEmpty then [] else escapeHtml u
  skeletonTemplate escapedPostUrl

/-- The observable effects of one run of the initializer: the skeleton
written to the outer container (`none` when nothing was written), the
effects of the loader (`none` when it was never invoked), and whether the
missing-configuration diagnostic was logged. -/
structure InitOut where
  containerHtml : Option Str
  load : Option LoadOut
  logged : Bool
  deriving DecidableEq

/-- JS falsiness of a nullable string: `null`/absent or empty. -/
def falsyStr (o : Option Str) : Bool :=
  match o with
  | none => true
  | some s => s.isEmpty

/-- `initMastodon` from the source, as a function of the presence and
attributes of the designated container element and of the fetch outcome.
No container: nothing happens.  Missing host or post id: a diagnostic is
logged and nothing else happens.  Otherwise the skeleton is injected and
the loader runs with the configured host, post id and language (default
`en`). -/
def initMastodon (fd : Str → Str → Str) (container : Option PageAttrs)
    (env : FetchOutcome) : InitOut :=
  match container with
  | none => ⟨none, none, false⟩
  | some attrs =>
    if falsyStr attrs.host || falsyStr attrs.postId then ⟨none, none, true⟩
    else
      let host := attrs.host.getD []
      let postId := attrs.postId.getD []
      let lang := jsOr attrs.lang "en".data
      ⟨some (skeletonOf attrs.postUrl),
       some (loadMastodonComments fd host postId lang env), false⟩

/-- A trivial date formatter used to instantiate closed witnesses. -/
def fdId : Str → Str → Str := fun s _ => s

theorem replaceAllGo_single (c : Char) (rep : Str) :
    ∀ fuel l, l.length ≤ fuel →
      replaceAllGo [c] rep fuel l = charExpand (fun x => if x = c then rep else [x]) l := by
  intro fuel
  induction fuel with
  | zero =>
    intro l hl
    have : l = [] := List.length_eq_zero.mp (Nat.le_zero.mp hl)
    subst this
    rfl
  | succ n ih =>
    intro l hl
    cases l with
    | nil => rfl
    | cons x xs =>
      have hxs : xs.length ≤ n := Nat.le_of_succ_le_succ hl
      by_cases hx : x = c
      · subst hx
        have hpre : [x].isPrefixOf (x :: xs) = true := by
          simp [List.isPrefixOf]
        simp [replaceAllGo, hpre, List.drop, ih xs hxs, charExpand]
      · have hpre : [c].isPrefixOf (x :: xs) = false := by
          simp [List.isPrefixOf]
          exact fun h => absurd h.symm hx
        simp [replaceAllGo, hpre, ih xs hxs, charExpand, hx]

theorem replaceAll_single (c : Char) (rep : Str) (l : Str) :
    replaceAll [c] rep l = charExpand (fun x => if x = c then rep else [x]) l :=
  replaceAllGo_single c rep l.length l (Nat.le_refl _)

theorem charExpand_append (f : Char → Str) (a b : Str) :
    charExpand f (a ++ b) = charExpand f a ++ charExpand f b := by
  induction a with
  | nil => rfl
  | cons x xs ih => simp [charExpand, ih]

/-- The five sequential global replacements act like a single simultaneous
per-character pass: later replacements never touch the entities introduced
by earlier ones. -/
theorem escapeHtml_eq_spec (s : Str) : escapeHtml s = escapeHtmlSpec s := by
  induction s with
  | nil => rfl
  | cons x xs ih =>
    have hx : escapeHtml (x :: xs) = escapeHtml [x] ++ escapeHtml xs := by
      simp only [escapeHtml, aposS, replaceAll_single]
      have h1 : ([x] : Str) ++ xs = x :: xs := rfl
      rw [← h1]
      simp only [charExpand_append]
    rw [hx, ih]
    show escapeHtml [x] ++ escapeHtmlSpec xs = escapeHtmlSpec (x :: xs)
    have hsingle : escapeHtml [x] = escChar x := by
      simp only [escapeHtml, aposS, replaceAll_single]
      by_cases h1 : x = '&'
      · subst h1; rfl
      · by_cases h2 : x = '<'
        · subst h2; rfl
        · by_cases h3 : x = '>'
          · subst h3; rfl
          · by_cases h4 : x = '"'
            · subst h4; rfl
            · by_cases h5 : x = apos
              · subst h5; rfl
              · simp [charExpand, escChar, h1, h2, h3, h4, h5]
    rw [hsingle]
    rfl

theorem ampOk_amp (r : Str) (h : ampOk r = true) : ampOk ("&amp;".data ++ r) = true := by
  simp only [String.data] at *
  simp [ampOk, entityList, List.isPrefixOf, h]

theorem ampOk_lt (r : Str) (h : ampOk r = true) : ampOk ("&lt;".data ++ r) = true := by
  simp only [String.data] at *
  simp [ampOk, entityList, List.isPrefixOf, h]

theorem ampOk_gt (r : Str) (h : ampOk r = true) : ampOk ("&gt;".data ++ r) = true := by
  simp only [String.data] at *
  simp [ampOk, entityList, List.isPrefixOf, h]

theorem ampOk_quot (r : Str) (h : ampOk r = true) : ampOk ("&quot;".data ++ r) = true := by
  simp only [String.data] at *
  simp [ampOk, entityList, List.isPrefixOf, h]

theorem ampOk_num (r : Str) (h : ampOk r = true) : ampOk ("&#039;".data ++ r) = true := by
  simp only [String.data] at *
  simp [ampOk, entityList, List.isPrefixOf, h]

theorem ampOk_other (c : Char) (hc : c ≠ '&') (r : Str) (h : ampOk r = true) :
    ampOk (c :: r) = true := by
  simp [ampOk, hc, h]

theorem ampOk_escChar (c : Char) (r : Str) (h : ampOk r = true) :
    ampOk (escChar c ++ r) = true := by
  unfold escChar
  by_cases h1 : c = '&'
  · simp only [h1, if_pos rfl]; exact ampOk_amp r h
  · rw [if_neg h1]
    by_cases h2 : c = '<'
    · rw [if_pos h2]; exact ampOk_lt r h
    · rw [if_neg h2]
      by_cases h3 : c = '>'
      · rw [if_pos h3]; exact ampOk_gt r h
      · rw [if_neg h3]
        by_cases h4 : c = '"'
        · rw [if_pos h4]; exact ampOk_quot r h
        · rw [if_neg h4]
          by_cases h5 : c = apos
          · rw [if_pos h5]; exact ampOk_num r h
          · rw [if_neg h5]
            exact ampOk_other c h1 r h

theorem noRawSpecials_escChar (c : Char) (r : Str) (h : noRawSpecials r = true) :
    noRawSpecials (escChar c ++ r) = true := by
  unfold escChar
  by_cases h1 : c = '&'
  · simp_all [noRawSpecials, apos]
  · rw [if_neg h1]
    by_cases h2 : c = '<'
    · simp_all [noRawSpecials, apos]
    · rw [if_neg h2]
      by_cases h3 : c = '>'
      · simp_all [noRawSpecials, apos]
      · rw [if_neg h3]
        by_cases h4 : c = '"'
        · simp_all [noRawSpecials, apos]
        · rw [if_neg h4]
          by_cases h5 : c = apos
          · simp_all [noRawSpecials, apos]
          · rw [if_neg h5]
            simp [noRawSpecials] at h ⊢
            exact ⟨⟨⟨⟨h2, h3⟩, h4⟩, h5⟩, h⟩

theorem escapeHtmlSpec_noRaw (s : Str) : noRawSpecials (escapeHtmlSpec s) = true := by
  induction s with
  | nil => rfl
  | cons x xs ih => exact noRawSpecials_escChar x _ ih

theorem escapeHtmlSpec_ampOk (s : Str) : ampOk (escapeHtmlSpec s) = true := by
  induction s with
  | nil => rfl
  | cons x xs ih => exact ampOk_escChar x _ ih

/-- Claim C2: for every input string, the output of the sanitizer
`escapeHtml` contains no literal occurrence of the characters `<`, `>`, `"`
or `'`, and every occurrence of `&` in the output is the start of one of the
five entity sequences the fixed replacements produce
(`&amp;`, `&lt;`, `&gt;`, `&quot;`, `&#039;`). -/
theorem c2_sanitizer_output (s : Str) :
    noRawSpecials (escapeHtml s) = true ∧ ampOk (escapeHtml s) = true := by
  rw [escapeHtml_eq_spec]
  exact ⟨escapeHtmlSpec_noRaw s, escapeHtmlSpec_ampOk s⟩

/-- Claim C3: the sanitizer `escapeHtml` is a total function defined on every
string including the empty one, and the composition of the five sequential
global replacements (ampersand first) equals a single simultaneous
per-character pass replacing each HTML-significant character by its entity —
i.e. the later replacements never double-escape the entities introduced by
the earlier ones. -/
theorem c3_sanitizer_composition :
    escapeHtml [] = [] ∧ ∀ s : Str, escapeHtml s = charExpand escChar s :=
  ⟨rfl, escapeHtml_eq_spec⟩

theorem joinSep_cons_cons (sep x s : Str) (ss : List Str) :
    joinSep sep ((x ++ s) :: ss) = x ++ joinSep sep (s :: ss) := by
  cases ss with
  | nil => rfl
  | cons s2 ss2 => simp [joinSep]

theorem splitAllGo_ne_nil (pat : Str) :
    ∀ fuel l, splitAllGo pat fuel l ≠ [] := by
  intro fuel
  induction fuel with
  | zero => intro l; simp [splitAllGo]
  | succ n ih =>
    intro l
    cases l with
    | nil => simp [splitAllGo]
    | cons x xs =>
      by_cases hp : pat.isPrefixOf (x :: xs)
      · simp [splitAllGo, hp]
      · simp only [splitAllGo, hp, Bool.false_eq_true, if_false]
        cases hs : splitAllGo pat n xs with
        | nil => simp
        | cons s ss => simp

/-- The head segment of a split, followed by the rest of the input, is the
input: the head segment is an initial run of the scanned string. -/
theorem splitAllGo_head_init (pat : Str) :
    ∀ fuel l, ∃ s ss t, splitAllGo pat fuel l = s :: ss ∧ s ++ t = l := by
  intro fuel
  induction fuel with
  | zero => intro l; exact ⟨l, [], [], rfl, by simp⟩
  | succ n ih =>
    intro l
    cases l with
    | nil => exact ⟨[], [], [], rfl, rfl⟩
    | cons x xs =>
      by_cases hp : pat.isPrefixOf (x :: xs)
      · exact ⟨[], splitAllGo pat n ((x :: xs).drop pat.length), x :: xs,
          by simp [splitAllGo, hp], rfl⟩
      · obtain ⟨s, ss, t, hsplit, hinit⟩ := ih xs
        refine ⟨x :: s, ss, t, ?_, by simp [hinit]⟩
        simp only [splitAllGo, hp, Bool.false_eq_true, if_false]
        rw [hsplit]

/-- Replacement is the split interleaved with the replacement string. -/
theorem replaceAllGo_eq_joinSep (pat rep : Str) :
    ∀ fuel l, replaceAllGo pat rep fuel l = joinSep rep (splitAllGo pat fuel l) := by
  intro fuel
  induction fuel with
  | zero => intro l; rfl
  | succ n ih =>
    intro l
    cases l with
    | nil => rfl
    | cons x xs =>
      by_cases hp : pat.isPrefixOf (x :: xs)
      · simp only [replaceAllGo, splitAllGo, hp, if_true]
        rw [ih]
        obtain ⟨s, ss, t, hsplit, _⟩ := splitAllGo_head_init pat n ((x :: xs).drop pat.length)
        rw [hsplit]
        show rep ++ joinSep rep (s :: ss) = joinSep rep (([] : Str) :: s :: ss)
        simp [joinSep]
      · obtain ⟨s, ss, t, hsplit, _⟩ := splitAllGo_head_init pat n xs
        have hstep : splitAllGo pat (n + 1) (x :: xs) = (x :: s) :: ss := by
          simp only [splitAllGo, hp, Bool.false_eq_true, if_false]
          rw [hsplit]
        rw [hstep]
        simp only [replaceAllGo, hp, Bool.false_eq_true, if_false]
        rw [ih xs, hsplit]
        have hx : (x :: s) = ([x] ++ s : Str) := rfl
        rw [hx, joinSep_cons_cons]
        rfl

theorem isPrefixOf_append_drop (pat : Str) :
    ∀ l, pat.isPrefixOf l = true → pat ++ l.drop pat.length = l := by
  induction pat with
  | nil => intro l _; simp
  | cons p ps ih =>
    intro l hp
    cases l with
    | nil => simp [List.isPrefixOf] at hp
    | cons x xs =>
      simp only [List.isPrefixOf, Bool.and_eq_true, beq_iff_eq] at hp
      obtain ⟨hpx, hps⟩ := hp
      subst hpx
      simp only [List.cons_append, List.length_cons, List.drop_succ_cons]
      rw [ih xs hps]

/-- Interleaving the segments with the pattern itself reconstructs the
input: the split loses nothing and every removed piece was a match. -/
theorem joinSep_splitAllGo (pat : Str) (hpat : pat ≠ []) :
    ∀ fuel l, l.length ≤ fuel → joinSep pat (splitAllGo pat fuel l) = l := by
  intro fuel
  induction fuel with
  | zero =>
    intro l hl
    have : l = [] := List.length_eq_zero.mp (Nat.le_zero.mp hl)
    subst this; rfl
  | succ n ih =>
    intro l hl
    cases l with
    | nil => rfl
    | cons x xs =>
      by_cases hp : pat.isPrefixOf (x :: xs)
      · simp only [splitAllGo, hp, if_true]
        obtain ⟨s, ss, t, hsplit, _⟩ := splitAllGo_head_init pat n ((x :: xs).drop pat.length)
        have hlen : ((x :: xs).drop pat.length).length ≤ n := by
          have h1 : pat.length ≥ 1 := by
            cases pat with
            | nil => exact absurd rfl hpat
            | cons a b => simp
          have h2 : ((x :: xs).drop pat.length).length = (x :: xs).length - pat.length := by
            simp
          omega
        have hrec := ih ((x :: xs).drop pat.length) hlen
        rw [hsplit] at hrec ⊢
        show joinSep pat (([] : Str) :: s :: ss) = x :: xs
        have : joinSep pat (([] : Str) :: s :: ss) = pat ++ joinSep pat (s :: ss) := by
          simp [joinSep]
        rw [this, hrec]
        exact isPrefixOf_append_drop pat (x :: xs) hp
      · obtain ⟨s, ss, t, hsplit, _⟩ := splitAllGo_head_init pat n xs
        have hstep : splitAllGo pat (n + 1) (x :: xs) = (x :: s) :: ss := by
          simp only [splitAllGo, hp, Bool.false_eq_true, if_false]
          rw [hsplit]
        have hrec := ih xs (Nat.le_of_succ_le_succ hl)
        rw [hsplit] at hrec
        rw [hstep]
        have hx : (x :: s) = ([x] ++ s : Str) := rfl
        rw [hx, joinSep_cons_cons, hrec]
        rfl

theorem isPrefixOf_append_right (pat : Str) :
    ∀ l t, pat.isPrefixOf l = true → pat.isPrefixOf (l ++ t) = true := by
  induction pat with
  | nil => intro l t _; simp [List.isPrefixOf]
  | cons p ps ih =>
    intro l t hp
    cases l with
    | nil => simp [List.isPrefixOf] at hp
    | cons x xs =>
      simp only [List.isPrefixOf, Bool.and_eq_true, beq_iff_eq] at hp
      simp only [List.cons_append, List.isPrefixOf, Bool.and_eq_true, beq_iff_eq]
      exact ⟨hp.1, ih xs t hp.2⟩

/-- No segment of the split contains a match of the pattern: the scan
consumed every occurrence. -/
theorem splitAllGo_segments_free (pat : Str) (hpat : pat ≠ []) :
    ∀ fuel l, (splitAllGo pat fuel l).all (fun s => !containsSeq pat s) = true ∨
      ¬ l.length ≤ fuel := by
  intro fuel
  induction fuel with
  | zero =>
    intro l
    by_cases hl : l.length ≤ 0
    · left
      have : l = [] := List.length_eq_zero.mp (Nat.le_zero.mp hl)
      subst this
      simp [splitAllGo, containsSeq, List.isEmpty_iff, hpat]
    · right; exact hl
  | succ n ih =>
    intro l
    by_cases hl : l.length ≤ n + 1
    · left
      cases l with
      | nil => simp [splitAllGo, containsSeq, List.isEmpty_iff, hpat]
      | cons x xs =>
        by_cases hp : pat.isPrefixOf (x :: xs)
        · simp only [splitAllGo, hp, if_true, List.all_cons]
          have hlen : ((x :: xs).drop pat.length).length ≤ n := by
            have h1 : pat.length ≥ 1 := by
              cases pat with
              | nil => exact absurd rfl hpat
              | cons a b => simp
            have h2 : ((x :: xs).drop pat.length).length = (x :: xs).length - pat.length := by
              simp
            omega
          have hrec := (ih ((x :: xs).drop pat.length)).resolve_right (not_not_intro hlen)
          simp only [hrec, Bool.and_true]
          simp [containsSeq, List.isEmpty_iff, hpat]
        · obtain ⟨s, ss, t, hsplit, hinit⟩ := splitAllGo_head_init pat n xs
          have hstep : splitAllGo pat (n + 1) (x :: xs) = (x :: s) :: ss := by
            simp only [splitAllGo, hp, Bool.false_eq_true, if_false]
            rw [hsplit]
          rw [hstep]
          have hxslen : xs.length ≤ n := by
            simp only [List.length_cons] at hl
            omega
          have hrec := (ih xs).resolve_right (not_not_intro hxslen)
          rw [hsplit] at hrec
          simp only [List.all_cons, Bool.and_eq_true] at hrec ⊢
          refine ⟨?_, hrec.2⟩
          have hsfree : containsSeq pat s = false := by
            have := hrec.1
            simpa using this
          have hxs : containsSeq pat (x :: s) = false := by
            simp only [containsSeq, Bool.or_eq_false_iff]
            refine ⟨?_, hsfree⟩
            by_cases hq : pat.isPrefixOf (x :: s) = true
            · exfalso
              have hext : pat.isPrefixOf ((x :: s) ++ t) = true :=
                isPrefixOf_append_right pat _ t hq
              have hxt : (x :: s) ++ t = x :: xs := by simp [hinit]
              rw [hxt] at hext
              exact hp hext
            · cases hv : pat.isPrefixOf (x :: s) with
              | false => rfl
              | true => exact absurd hv hq
          simp [hxs]
    · right; exact hl

/-- If the pattern occurs nowhere in the string, replacement is the
identity. -/
theorem replaceAllGo_not_contains (pat rep : Str) :
    ∀ fuel l, containsSeq pat l = false → replaceAllGo pat rep fuel l = l := by
  intro fuel
  induction fuel with
  | zero => intro l _; rfl
  | succ n ih =>
    intro l hc
    cases l with
    | nil => rfl
    | cons x xs =>
      simp only [containsSeq, Bool.or_eq_false_iff] at hc
      simp only [replaceAllGo, hc.1, Bool.false_eq_true, if_false]
      rw [ih xs hc.2]

theorem replaceAll_eq_joinSep (pat rep l : Str) :
    replaceAll pat rep l = joinSep rep (splitAll pat l) :=
  replaceAllGo_eq_joinSep pat rep l.length l

theorem joinSep_splitAll (pat : Str) (hpat : pat ≠ []) (l : Str) :
    joinSep pat (splitAll pat l) = l :=
  joinSep_splitAllGo pat hpat l.length l (Nat.le_refl _)

theorem splitAll_segments_free (pat : Str) (hpat : pat ≠ []) (l : Str) :
    (splitAll pat l).all (fun s => !containsSeq pat s) = true :=
  (splitAllGo_segments_free pat hpat l.length l).resolve_right (by simp)

theorem replaceAll_not_contains (pat rep l : Str) (hc : containsSeq pat l = false) :
    replaceAll pat rep l = l :=
  replaceAllGo_not_contains pat rep l.length l hc

theorem emojiPattern_ne_nil (e : Emoji) : emojiPattern e ≠ [] := by
  simp [emojiPattern]

theorem emojify_single (c : Str) (e : Emoji) :
    emojify c (some [e]) = replaceAll (emojiPattern e) (emojiImg e) c := rfl

/-- Claim C6: emoji substitution replaces every literal occurrence of
`:shortcode:` globally.  An absent or empty collection leaves the content
unchanged.  For one pair, the output interleaves the segments of the
content between the matches with the image element; interleaving the same
segments with the pattern instead reconstructs the content exactly, and no
segment still contains the pattern — so precisely the occurrences of
`:shortcode:` were replaced, each by an image element whose `src` is the
sanitized URL, whose `alt` is the sanitized shortcode, and which carries a
lazy-loading hint.  On content `"Hi :wave: there"` with the single pair
`(wave, https://x/w.png)` the output is `"Hi "`, then exactly one image
element referencing `https://x/w.png` with alt `wave`, then `" there"`, and
the literal text `:wave:` no longer appears. -/
theorem c6_emojify (c : Str) (e : Emoji) :
    emojify c none = c ∧
    emojify c (some []) = c ∧
    emojiImg e = emojiImgTemplate (escapeHtml e.url) (escapeHtml e.shortcode) ∧
    emojify c (some [e]) = joinSep (emojiImg e) (splitAll (emojiPattern e) c) ∧
    joinSep (emojiPattern e) (splitAll (emojiPattern e) c) = c ∧
    (splitAll (emojiPattern e) c).all
      (fun s => !containsSeq (emojiPattern e) s) = true ∧
    emojify "Hi :wave: there".data (some [⟨"wave".data, "https://x/w.png".data⟩]) =
      "Hi ".data ++
        "<img src=\"https://x/w.png\" alt=\"wave\" class=\"emoji\" loading=\"lazy\" />".data ++
        " there".data ∧
    countSeq "<img".data
      (emojify "Hi :wave: there".data
        (some [⟨"wave".data, "https://x/w.png".data⟩])) = 1 ∧
    countSeq ":wave:".data
      (emojify "Hi :wave: there".data
        (some [⟨"wave".data, "https://x/w.png".data⟩])) = 0 := by
  refine ⟨rfl, rfl, rfl, ?_, ?_, ?_, by decide, by decide, by decide⟩
  · rw [emojify_single]
    exact replaceAll_eq_joinSep _ _ _
  · exact joinSep_splitAll _ (emojiPattern_ne_nil e) c
  · exact splitAll_segments_free _ (emojiPattern_ne_nil e) c

/-- Counterexample to claim C7 as stated: with the emoji `(a, u:a:v)` listed
twice, the second replacement pass rewrites the `:a:` inside the `src` URL
of the image element inserted by the first pass, so the duplicate is not
redundant: the result differs from the one the collection without the
duplicate produces. -/
theorem c7_counterexample :
    emojify ":a:".data (some [emojiSelf, emojiSelf]) ≠
      emojify ":a:".data (some [emojiSelf]) := by
  decide

/-- Claim C7, amended: substitution is applied once per pair in the
collection's order, and when the same shortcode appears twice, the second
pass has no additional effect — the result equals that of the collection
with the duplicate removed — provided the literal text `:shortcode:` does
not occur in the result of the first pass (the first pass consumed every
occurrence in the content, but the inserted image element itself can
reintroduce the pattern, e.g. inside the emoji URL, and is then rewritten
by the second pass). -/
theorem c7_duplicate_shortcode (c : Str) (e : Emoji)
    (h : containsSeq (emojiPattern e) (emojify c (some [e])) = false) :
    emojify c (some [e, e]) = emojify c (some [e]) := by
  have hstep : emojify c (some [e, e]) =
      replaceAll (emojiPattern e) (emojiImg e) (emojify c (some [e])) := rfl
  rw [hstep]
  exact replaceAll_not_contains _ _ _ h

/-- Concrete instance of the amended claim C7: for the `(wave,
https://x/w.png)` emoji and content `":wave: hi"`, the first pass leaves no
occurrence of `:wave:`, and listing the pair twice gives the same result as
listing it once. -/
theorem c7_duplicate_shortcode_witness :
    containsSeq (emojiPattern ⟨"wave".data, "https://x/w.png".data⟩)
      (emojify ":wave: hi".data (some [⟨"wave".data, "https://x/w.png".data⟩])) = false ∧
    emojify ":wave: hi".data
        (some [⟨"wave".data, "https://x/w.png".data⟩, ⟨"wave".data, "https://x/w.png".data⟩]) =
      emojify ":wave: hi".data (some [⟨"wave".data, "https://x/w.png".data⟩]) :=
  ⟨by decide, c7_duplicate_shortcode ":wave: hi".data ⟨"wave".data, "https://x/w.png".data⟩
    (by decide)⟩

/-- Claim C8: the list renderer yields exactly the fixed "no comments yet"
message for an absent or empty collection, and for a non-empty collection
the concatenation of the per-reply fragments of `renderComment`, in the
collection's order, one fragment per reply. -/
theorem c8_render_comments (fd : Str → Str → Str) (lang : Str) (c : Comment)
    (cs : List Comment) :
    renderComments fd none lang = noCommentsMsg ∧
    renderComments fd (some []) lang = noCommentsMsg ∧
    renderComments fd (some (c :: cs)) lang =
      ((c :: cs).map fun x => renderComment fd x lang).flatten ∧
    ((c :: cs).map fun x => renderComment fd x lang).length = (c :: cs).length := by
  refine ⟨rfl, rfl, rfl, by simp⟩

/-- Claim C10: an absent or empty attachment list emits no attachments
block at all; an attachment of a kind other than image, video, gifv or
audio emits nothing; for the video and audio kinds an absent MIME type
falls back to `video/mp4` and `audio/mpeg` respectively. -/
theorem c10_attachment_fallbacks (m : MediaAttachment) :
    attachmentsHtmlOf none = [] ∧
    attachmentsHtmlOf (some []) = [] ∧
    (m.type ≠ "image".data → m.type ≠ "video".data → m.type ≠ "gifv".data →
      m.type ≠ "audio".data → mediaFragment m = []) ∧
    (m.type = "video".data → m.mime_type = none →
      mediaFragment m =
        "<video controls preload=\"metadata\" poster=\"".data ++
          escapeHtml m.preview_url ++
          "\">\n                    <source src=\"".data ++ escapeHtml m.url ++
          "\" type=\"".data ++ "video/mp4".data ++
          "\">\n                </video>".data) ∧
    (m.type = "audio".data → m.mime_type = none →
      mediaFragment m =
        "<audio controls preload=\"metadata\">\n                    <source src=\"".data ++
          escapeHtml m.url ++ "\" type=\"".data ++ "audio/mpeg".data ++
          "\">\n                </audio>".data) := by
  refine ⟨rfl, rfl, ?_, ?_, ?_⟩
  · intro h1 h2 h3 h4
    unfold mediaFragment
    rw [if_neg h1, if_neg (by rintro (h | h) <;> [exact h2 h; exact h3 h]),
      if_neg h4]
  · intro hv hm
    unfold mediaFragment
    rw [hv, hm]
    rw [if_neg (by decide), if_pos (by exact Or.inl rfl)]
    rfl
  · intro ha hm
    unfold mediaFragment
    rw [ha, hm]
    rw [if_neg (by decide), if_neg (by decide), if_pos rfl]
    rfl

/-- Concrete instance of claim C10: a `video` attachment without a MIME
type renders with the `video/mp4` fallback, and an attachment of the
unknown kind `unknown` renders nothing. -/
theorem c10_attachment_fallbacks_witness :
    mediaFragment ⟨"video".data, "https://h/v.mp4".data, "https://h/p.png".data, none, none⟩ =
      "<video controls preload=\"metadata\" poster=\"".data ++
        escapeHtml "https://h/p.png".data ++
        "\">\n                    <source src=\"".data ++
        escapeHtml "https://h/v.mp4".data ++
        "\" type=\"".data ++ "video/mp4".data ++
        "\">\n                </video>".data ∧
    mediaFragment ⟨"unknown".data, "u".data, "p".data, none, none⟩ = [] :=
  ⟨(c10_attachment_fallbacks _).2.2.2.1 rfl rfl,
   (c10_attachment_fallbacks _).2.2.1 (by decide) (by decide) (by decide) (by decide)⟩

/-- Claim C4: the loader accepts a host exactly when it is a nonempty run
of ASCII letters (either case), digits, dots and hyphens — the
case-insensitive pattern `^[a-z0-9.-]+$` — and a post identifier exactly
when it is a nonempty run of decimal digits (`^\d+$`); `example.social`
and `12345` are accepted, `example.com/evil` and `12a` rejected; and when
either value is invalid the run ends in the error state with the fixed
error message in the container, without issuing the network request. -/
theorem c4_input_validation (fd : Str → Str → Str) (host postId lang : Str)
    (env : FetchOutcome) :
    (validHost host = true ↔ hostRegexSpec host) ∧
    (validPostId postId = true ↔ postIdRegexSpec postId) ∧
    validHost "example.social".data = true ∧
    validHost "example.com/evil".data = false ∧
    validPostId "12345".data = true ∧
    validPostId "12a".data = false ∧
    (validHost host = false ∨ validPostId postId = false →
      loadMastodonComments fd host postId lang env = ⟨errorMsg, false, true⟩) := by
  refine ⟨?_, ?_, by decide, by decide, by decide, by decide, ?_⟩
  · simp [validHost, hostRegexSpec, List.isEmpty_iff, List.all_eq_true]
    intro _
    constructor
    · intro h c hc
      have := h c hc
      tauto
    · intro h c hc
      have := h c hc
      tauto
  · simp [validPostId, postIdRegexSpec, List.isEmpty_iff, List.all_eq_true]
  · intro h
    by_cases hh : validHost host = true
    · have hp : validPostId postId = false := by
        cases h with
        | inl h => rw [h] at hh; exact absurd hh (by simp)
        | inr h => exact h
      simp [loadMastodonComments, hh, hp]
    · have hh' : validHost host = false := by
        cases hv : validHost host with
        | false => rfl
        | true => exact absurd hv hh
      simp [loadMastodonComments, hh']

/-- Concrete instance of claim C4: for the rejected host
`example.com/evil` the loader writes the fixed error message without
fetching, for any fetch environment (here: a would-be successful one). -/
theorem c4_input_validation_witness :
    (validHost "example.com/evil".data = false ∨
      validPostId "12345".data = false) ∧
    loadMastodonComments fdId "example.com/evil".data "12345".data "en".data
        (.response true (some (some []))) = ⟨errorMsg, false, true⟩ :=
  ⟨Or.inl (by decide),
   (c4_input_validation fdId "example.com/evil".data "12345".data "en".data
      (.response true (some (some [])))).2.2.2.2.2.2 (Or.inl (by decide))⟩

/-- Claim C5: every fetch-stage failure — invalid host or post-id format,
transport failure, non-success HTTP status, malformed response body —
converges to the same user-visible outcome: the fixed error message in the
inner container, plus a diagnostic log entry; and a successful response
renders the `descendants` list (absent ⇒ empty) through the list renderer
into the inner container, with no log. -/
theorem c5_failure_convergence (fd : Str → Str → Str) (host postId lang : Str)
    (env : FetchOutcome) (ds : Option (List Comment)) :
    (validHost host = false ∨ validPostId postId = false ∨ env.isFailure = true →
      (loadMastodonComments fd host postId lang env).innerHtml = errorMsg ∧
      (loadMastodonComments fd host postId lang env).logged = true) ∧
    (validHost host = true → validPostId postId = true →
      loadMastodonComments fd host postId lang (.response true (some ds)) =
        ⟨renderComments fd (some (ds.getD [])) lang, true, false⟩) := by
  constructor
  · intro h
    by_cases hh : validHost host = true
    · by_cases hp : validPostId postId = true
      · have hf : env.isFailure = true := by
          rcases h with h | h | h
          · rw [h] at hh; exact absurd hh (by simp)
          · rw [h] at hp; exact absurd hp (by simp)
          · exact h
        cases env with
        | transportFailure => simp [loadMastodonComments, hh, hp]
        | response ok body =>
          cases ok with
          | false => simp [loadMastodonComments, hh, hp]
          | true =>
            cases body with
            | none => simp [loadMastodonComments, hh, hp]
            | some ds2 => simp [FetchOutcome.isFailure] at hf
      · have hp' : validPostId postId = false := by
          cases hv : validPostId postId with
          | false => rfl
          | true => exact absurd hv hp
        simp [loadMastodonComments, hh, hp']
    · have hh' : validHost host = false := by
        cases hv : validHost host with
        | false => rfl
        | true => exact absurd hv hh
      simp [loadMastodonComments, hh']
  · intro hh hp
    simp [loadMastodonComments, hh, hp]

/-- Concrete instance of claim C5: with valid configuration, an HTTP 500
response yields the fixed error message plus a log entry, and a successful
response without a `descendants` field renders the empty list (the fixed
empty-state message) without a log entry. -/
theorem c5_failure_convergence_witness :
    ((loadMastodonComments fdId "example.social".data "1".data "en".data
        (.response false (some (some [])))).innerHtml = errorMsg ∧
      (loadMastodonComments fdId "example.social".data "1".data "en".data
        (.response false (some (some [])))).logged = true) ∧
    loadMastodonComments fdId "example.social".data "1".data "en".data
        (.response true (some none)) =
      ⟨renderComments fdId (some []) "en".data, true, false⟩ :=
  ⟨(c5_failure_convergence fdId "example.social".data "1".data "en".data
      (.response false (some (some []))) (some [])).1
      (Or.inr (Or.inr (by decide))),
   (c5_failure_convergence fdId "example.social".data "1".data "en".data
      (.response true (some none)) none).2 (by decide) (by decide)⟩

/-- Claim C9: when the designated container element is absent the
initializer is a silent no-op — no markup is written anywhere, the loader
never runs (so no network request), and nothing is logged; when the host
or post-identifier attribute is missing (or empty), the initializer logs
the missing-configuration diagnostic and aborts with no container
mutation and no loader run. -/
theorem c9_init_frame (fd : Str → Str → Str) (env : FetchOutcome)
    (attrs : PageAttrs) :
    initMastodon fd none env = ⟨none, none, false⟩ ∧
    (falsyStr attrs.host = true ∨ falsyStr attrs.postId = true →
      initMastodon fd (some attrs) env = ⟨none, none, true⟩) := by
  refine ⟨rfl, ?_⟩
  intro h
  have hcond : (falsyStr attrs.host || falsyStr attrs.postId) = true := by
    cases h with
    | inl h => simp [h]
    | inr h => simp [h]
  simp [initMastodon, hcond]

/-- Concrete instance of claim C9: a container whose host attribute is
missing leads to the logged silent abort. -/
theorem c9_init_frame_witness :
    initMastodon fdId (some ⟨none, some "1".data, none, none⟩) .transportFailure =
      ⟨none, none, true⟩ :=
  (c9_init_frame fdId .transportFailure ⟨none, some "1".data, none, none⟩).2
    (Or.inl rfl)

/-- Claim C1: sanitization invariant of the renderer and the initializer.
`renderComment` equals an escape-free template applied to the sanitized
display name (after the handle fallback), sanitized handle, sanitized
profile URL, sanitized avatar URL, the body passed through the emoji step
alone, the formatted timestamp, and the sanitized permalink; each media
attachment element equals an escape-free template applied to the sanitized
media URL, preview URL, MIME type and description; each substituted emoji
image equals an escape-free template applied to the sanitized emoji URL and
shortcode; and the initializer's skeleton equals an escape-free template
applied to the sanitized optional post URL.  Hence every URL and plain-text
field from the reply or the page configuration passes through `escapeHtml`
before being concatenated into HTML, and only the body is exempt, passing
through `emojify` alone. -/
theorem c1_sanitization_invariant (fd : Str → Str → Str) (comment : Comment)
    (lang : Str) (media : MediaAttachment) (e : Emoji) (postUrl : Option Str) :
    renderComment fd comment lang =
      renderCommentTemplate
        (escapeHtml (jsOr comment.account.display_name comment.account.username))
        (escapeHtml comment.account.username)
        (escapeHtml comment.account.url)
        (escapeHtml comment.account.avatar)
        (emojify comment.content comment.emojis)
        (fd comment.created_at lang)
        (escapeHtml comment.url)
        (attachmentsHtmlOf comment.media_attachments) ∧
    mediaFragment media =
      mediaFragmentTemplate media.type (escapeHtml media.url)
        (escapeHtml media.preview_url) (escapeHtml (jsOr media.mime_type []))
        (escapeHtml (jsOr media.description "Image".data)) ∧
    emojiImg e = emojiImgTemplate (escapeHtml e.url) (escapeHtml e.shortcode) ∧
    skeletonOf postUrl =
      skeletonTemplate (match postUrl with
        | none => []
        | some u => if u.isEmpty then [] else escapeHtml u) :=
  ⟨rfl, rfl, rfl, rfl⟩

end Mastodon
